import Mathlib

/-!
Verification development for the profile-reconciliation engine of
`bemani/data/api/user.py` (class `GlobalUserData`).

The Python code is shallowly embedded: JSON-like payloads become the
inductive type `Val`, Python dicts become insertion-ordered association
lists, and the stateful record mutation performed by `get_all_profiles`
is made explicit by returning the post-call state of the remote records.
A raised Python exception is modelled as `Except.error ()`.
-/

/-- A JSON-like value, the payload type of raw profile records. -/
inductive Val where
  | vInt : Int → Val
  | vStr : String → Val
  | vList : List Val → Val
  | vDict : List (String × Val) → Val

/-- A Python dict with string keys, as an insertion-ordered association list. -/
abbrev Dct := List (String × Val)

/-- Python dict lookup (`d.get(k)` / `d[k]`): the value at the first
occurrence of the key, if any. -/
def mget {α β : Type} [DecidableEq α] : List (α × β) → α → Option β
  | [], _ => none
  | (k0, v) :: t, k => if k0 = k then some v else mget t k

/-- Python `d.get(k, default)`. -/
def mgetD {α β : Type} [DecidableEq α] (m : List (α × β)) (k : α) (d : β) : β :=
  (mget m k).getD d

/-- Python dict assignment `d[k] = v`: replace the value in place when the
key exists (keeping its position), otherwise append the new entry. -/
def mset {α β : Type} [DecidableEq α] : List (α × β) → α → β → List (α × β)
  | [], k, v => [(k, v)]
  | (k0, v0) :: t, k, v => if k0 = k then (k, v) :: t else (k0, v0) :: mset t k v

/-- Python `del d[k]` on a key known to be present: drop the entry. -/
def mdel {α β : Type} [DecidableEq α] : List (α × β) → α → List (α × β)
  | [], _ => []
  | (k0, v0) :: t, k => if k0 = k then mdel t k else (k0, v0) :: mdel t k

/-- Python `k in d`. -/
def mcontains {α β : Type} [DecidableEq α] (m : List (α × β)) (k : α) : Bool :=
  (mget m k).isSome

/-- Python `del d[k]` with its failure mode: `KeyError` (modelled as
`Except.error ()`) when the key is absent. -/
def mdelE {α β : Type} [DecidableEq α] (m : List (α × β)) (k : α) : Except Unit (List (α × β)) :=
  if mcontains m k then Except.ok (mdel m k) else Except.error ()

/-- A Python dict comprehension over a list of key/value pairs: later
entries overwrite earlier ones. -/
def mapOf {α β : Type} [DecidableEq α] (l : List (α × β)) : List (α × β) :=
  l.foldl (fun m kv => mset m kv.1 kv.2) []

/-- `ValidatedDict.get_int(name, default)`: the integer stored at the key,
or the default when the key is absent or holds a non-integer. -/
def get_int (d : Dct) (k : String) (dflt : Int) : Int :=
  match mget d k with
  | some (Val.vInt n) => n
  | _ => dflt

/-- `ValidatedDict.get_dict(name)`: the nested dict stored at the key, or
the empty dict when the key is absent or holds a non-dict. -/
def get_dict (d : Dct) (k : String) : Dct :=
  match mget d k with
  | some (Val.vDict q) => q
  | _ => []

/-- `card.upper()`: uppercase every character of a card identifier
(cards are ASCII tokens, so per-character uppercasing matches Python). -/
def upperStr (s : String) : String :=
  String.mk (s.data.map Char.toUpper)

/-- `[card.upper() for card in profile.get('cards', [])]`: the
case-normalized card list of a raw record.  Records are well formed
(`wf_cards`) when the `cards` entry, if present, is a list of strings;
on such records this is exactly the uppercased card list. -/
def cardsOf (p : Dct) : List String :=
  match mget p "cards" with
  | some (Val.vList l) =>
      l.filterMap (fun v =>
        match v with
        | Val.vStr s => some (upperStr s)
        | _ => none)
  | _ => []

/-- Well-formedness of a raw record's `cards` entry: when present it is a
list of strings (the shape every peer response has; on any other shape the
Python list comprehension would raise instead). -/
def wf_cards (p : Dct) : Bool :=
  match mget p "cards" with
  | none => true
  | some (Val.vList l) =>
      l.all (fun v =>
        match v with
        | Val.vStr _ => true
        | _ => false)
  | some _ => false

/-- `profile.get('match', 'partial') == 'exact'`: true exactly when the
record carries a string marker equal to `exact`; an absent or non-string
marker counts as `partial`. -/
def exact_match_of (p : Dct) : Bool :=
  match mget p "match" with
  | some (Val.vStr s) => s == "exact"
  | some _ => false
  | none => false

/-- The game tag (`GameConstants`).  Modelled from the spec: the enum
itself lives in `bemani/common`, outside `src/`; only the seven members
dispatched on by the normalizer are needed, each carrying its string
value. -/
inductive GameConstants where
  | ddr
  | iidx
  | jubeat
  | museca
  | popn_music
  | reflec_beat
  | sdvx
deriving DecidableEq

/-- The string value of a game tag (`GameConstants.XXX.value`). -/
def GameConstants.value : GameConstants → String
  | GameConstants.ddr => "ddr"
  | GameConstants.iidx => "iidx"
  | GameConstants.jubeat => "jubeat"
  | GameConstants.museca => "museca"
  | GameConstants.popn_music => "pnm"
  | GameConstants.reflec_beat => "reflec"
  | GameConstants.sdvx => "sdvx"

/-- `GameConstants(x)`: parse a payload value back into a game tag;
`none` models the `ValueError` raised on anything else. -/
def GameConstants.fromVal : Val → Option GameConstants
  | Val.vStr "ddr" => some GameConstants.ddr
  | Val.vStr "iidx" => some GameConstants.iidx
  | Val.vStr "jubeat" => some GameConstants.jubeat
  | Val.vStr "museca" => some GameConstants.museca
  | Val.vStr "pnm" => some GameConstants.popn_music
  | Val.vStr "reflec" => some GameConstants.reflec_beat
  | Val.vStr "sdvx" => some GameConstants.sdvx
  | _ => none

/-- A user identity.  Modelled from the spec: identities are either owned
by the local store or virtual, i.e. derived deterministically from exactly
one card identifier (`bemani/data/remoteuser.py` is not under `src/`). -/
inductive UserID where
  | loc : Nat → UserID
  | remote : String → UserID
deriving DecidableEq

/-- Modelled from the spec: `RemoteUser.is_remote` is a pure predicate
distinguishing virtual identities without a store lookup. -/
def RemoteUser.is_remote : UserID → Bool
  | UserID.loc _ => false
  | UserID.remote _ => true

/-- Modelled from the spec: `RemoteUser.card_to_userid` is the total,
injective, stable derivation of a virtual identity from a card. -/
def RemoteUser.card_to_userid (cardid : String) : UserID :=
  UserID.remote cardid

/-- Modelled from the spec: `RemoteUser.userid_to_card` inverts the
derivation.  On a local identity the source raises; every modelled call
path checks `is_remote` first, so the junk value is never reached. -/
def RemoteUser.userid_to_card : UserID → String
  | UserID.remote c => c
  | UserID.loc _ => ""

/-- `__format_ddr_profile`: emit `area` when present and not `-1`. -/
def format_ddr_profile (p : Dct) : Dct :=
  let updates : Dct := []
  let area := get_int p "area" (-1)
  let updates := if area ≠ -1 then mset updates "area" (Val.vInt area) else updates
  updates

/-- `updates['qpro'][k] = v`: write into the nested `qpro` dict held by
the updates dict. -/
def setQpro (updates : Dct) (k : String) (v : Val) : Dct :=
  mset updates "qpro" (Val.vDict (mset (get_dict updates "qpro") k v))

/-- `__format_iidx_profile`: always seed an (initially empty) `qpro` map,
emit `pid` from `area` when not `-1`, and copy each of the five qpro
sub-fields only when present and not `-1`. -/
def format_iidx_profile (p : Dct) : Dct :=
  let updates : Dct := [("qpro", Val.vDict [])]
  let area := get_int p "area" (-1)
  let updates := if area ≠ -1 then mset updates "pid" (Val.vInt area) else updates
  let qpro := get_dict p "qpro"
  let head := get_int qpro "head" (-1)
  let updates := if head ≠ -1 then setQpro updates "head" (Val.vInt head) else updates
  let hair := get_int qpro "hair" (-1)
  let updates := if hair ≠ -1 then setQpro updates "hair" (Val.vInt hair) else updates
  let face := get_int qpro "face" (-1)
  let updates := if face ≠ -1 then setQpro updates "face" (Val.vInt face) else updates
  let body := get_int qpro "body" (-1)
  let updates := if body ≠ -1 then setQpro updates "body" (Val.vInt body) else updates
  let hand := get_int qpro "hand" (-1)
  let updates := if hand ≠ -1 then setQpro updates "hand" (Val.vInt hand) else updates
  updates

/-- `__format_jubeat_profile`: no extra fields. -/
def format_jubeat_profile (_p : Dct) : Dct := []

/-- `__format_museca_profile`: no extra fields. -/
def format_museca_profile (_p : Dct) : Dct := []

/-- `__format_popn_profile`: emit `chara` from `character` when not `-1`. -/
def format_popn_profile (p : Dct) : Dct :=
  let updates : Dct := []
  let chara := get_int p "character" (-1)
  let updates := if chara ≠ -1 then mset updates "chara" (Val.vInt chara) else updates
  updates

/-- `__format_reflec_profile`: emit `config.icon_id` from `icon` when not `-1`. -/
def format_reflec_profile (p : Dct) : Dct :=
  let updates : Dct := []
  let icon := get_int p "icon" (-1)
  let updates := if icon ≠ -1 then mset updates "config" (Val.vDict [("icon_id", Val.vInt icon)]) else updates
  updates

/-- `__format_sdvx_profile`: no extra fields. -/
def format_sdvx_profile (_p : Dct) : Dct := []

/-- `base.update(updates)`: Python `dict.update`, folding each update
entry into the base dict in order. -/
def dupdate (base updates : Dct) : Dct :=
  updates.foldl (fun b kv => mset b kv.1 kv.2) base

/-- `__format_profile`: build the canonical profile from the fixed fields
plus the per-game updates.  `none` models the exception raised when one of
the mandatory keys is missing (`KeyError`) or the game value does not
parse (`ValueError`); every modelled caller sets these keys first. -/
def format_profile (p : Dct) : Option Dct :=
  match mget p "game", mget p "version", mget p "refid", mget p "extid" with
  | some gamev, some versionv, some refidv, some extidv =>
    let base : Dct :=
      [("name", mgetD p "name" (Val.vStr "")),
       ("game", gamev),
       ("version", versionv),
       ("refid", refidv),
       ("extid", extidv)]
    match GameConstants.fromVal gamev with
    | none => none
    | some profilegame =>
      let base := if profilegame = GameConstants.ddr then dupdate base (format_ddr_profile p) else base
      let base := if profilegame = GameConstants.iidx then dupdate base (format_iidx_profile p) else base
      let base := if profilegame = GameConstants.jubeat then dupdate base (format_jubeat_profile p) else base
      let base := if profilegame = GameConstants.museca then dupdate base (format_museca_profile p) else base
      let base := if profilegame = GameConstants.popn_music then dupdate base (format_popn_profile p) else base
      let base := if profilegame = GameConstants.reflec_beat then dupdate base (format_reflec_profile p) else base
      let base := if profilegame = GameConstants.sdvx then dupdate base (format_sdvx_profile p) else base
      some base
  | _, _, _, _ => none

/-- The local store (`UserData`), an external collaborator: the engine
only consumes these lookups. -/
structure LocalStore where
  get_refid : GameConstants → Int → UserID → String
  get_extid : GameConstants → Int → UserID → Int
  get_profile : GameConstants → Int → UserID → Option Dct
  get_any_profile : GameConstants → Int → UserID → Option Dct
  get_any_profiles : GameConstants → Int → List UserID → List (UserID × Option Dct)
  get_all_cards : List (String × UserID)
  get_all_profiles : GameConstants → Int → List (UserID × Dct)
  from_cardid : String → Option UserID
  from_refid : GameConstants → Int → String → Option UserID
  from_extid : GameConstants → Int → Int → Option UserID

/-- The id-type selector passed to a peer (`APIConstants.ID_TYPE_CARD` /
`ID_TYPE_SERVER`). -/
inductive IdType where
  | card
  | server
deriving DecidableEq

/-- A remote peer client: `client.get_profiles(game, version, idType, ids)`. -/
abbrev Client := GameConstants → Int → IdType → List String → List Dct

/-- `Parallel.flatten(Parallel.call([client.get_profiles ...], args))`:
one call per configured peer, responses concatenated in peer order with
each peer's internal order preserved. -/
def call_clients (clients : List Client) (game : GameConstants) (version : Int)
    (t : IdType) (ids : List String) : List Dct :=
  (clients.map (fun c => c game version t ids)).flatten

/-- The sanitization performed by `__profile_request` and
`get_any_profiles` on an accepted record after `del profile['cards']`:
read the match marker, drop it, and write the four mandatory fields, with
`version` set to the requested version on an exact match and the sentinel
`0` otherwise. -/
def finish_sanitize (game : GameConstants) (version : Int) (refid : String) (extid : Int)
    (p1 : Dct) : Dct :=
  let e := exact_match_of p1
  let p2 := mdel p1 "match"
  let p3 := mset p2 "game" (Val.vStr game.value)
  let p4 := mset p3 "version" (Val.vInt (if e then version else 0))
  let p5 := mset p4 "refid" (Val.vStr refid)
  mset p5 "extid" (Val.vInt extid)

/-- The scan loop of `__profile_request`: walk the flattened peer records
in order; on the first record whose case-normalized card list contains the
target card, sanitize a copy and normalize it, except that with `ex = true`
a non-exact record is skipped and the scan continues. -/
def profile_request_scan (game : GameConstants) (version : Int) (refid : String) (extid : Int)
    (ex : Bool) (cardid : String) : List Dct → Except Unit (Option Dct)
  | [] => Except.ok none
  | r :: rest =>
    if cardid ∈ cardsOf r then
      match mdelE r "cards" with
      | Except.error e => Except.error e
      | Except.ok p1 =>
        if ex ∧ ¬ exact_match_of p1 then
          profile_request_scan game version refid extid ex cardid rest
        else
          match format_profile (finish_sanitize game version refid extid p1) with
          | some fp => Except.ok (some fp)
          | none => Except.error ()
    else
      profile_request_scan game version refid extid ex cardid rest

/-- `__profile_request`: derive the card of the virtual user, look up its
reference/external ids, fan the query out to every peer, and scan the
flattened responses. -/
def profile_request (store : LocalStore) (clients : List Client) (game : GameConstants)
    (version : Int) (userid : UserID) (ex : Bool) : Except Unit (Option Dct) :=
  let cardid := RemoteUser.userid_to_card userid
  let refid := store.get_refid game version userid
  let extid := store.get_extid game version userid
  let profiles := call_clients clients game version IdType.card [cardid]
  profile_request_scan game version refid extid ex cardid profiles

/-- `get_profile`: strict single-user lookup; remote identities go through
`__profile_request` with `exact=True`, local ones straight to the store. -/
def GlobalUserData.get_profile (store : LocalStore) (clients : List Client)
    (game : GameConstants) (version : Int) (userid : UserID) : Except Unit (Option Dct) :=
  if RemoteUser.is_remote userid then
    profile_request store clients game version userid true
  else
    Except.ok (store.get_profile game version userid)

/-- `get_any_profile`: non-strict single-user lookup; remote identities go
through `__profile_request` with `exact=False`. -/
def GlobalUserData.get_any_profile (store : LocalStore) (clients : List Client)
    (game : GameConstants) (version : Int) (userid : UserID) : Except Unit (Option Dct) :=
  if RemoteUser.is_remote userid then
    profile_request store clients game version userid false
  else
    Except.ok (store.get_any_profile game version userid)

/-- The inner loop of `get_any_profiles` over the card list of one remote
record.  The first component threads the Python variable `profile`, which
the source rebinds to the sanitized deep copy: a later requested card of
the same record therefore sees a copy whose `cards` key is already gone,
and `del profile['cards']` raises (`Except.error`). -/
def gap_inner (store : LocalStore) (game : GameConstants) (version : Int) :
    List String → Dct → List (String × UserID) → List (UserID × Option Dct) →
    Except Unit (Dct × List (String × UserID) × List (UserID × Option Dct))
  | [], profile, m, acc => Except.ok (profile, m, acc)
  | card :: rest, profile, m, acc =>
    match mget m card with
    | none => gap_inner store game version rest profile m acc
    | some userid =>
      match mdelE profile "cards" with
      | Except.error e => Except.error e
      | Except.ok p1 =>
        let refid := store.get_refid game version userid
        let extid := store.get_extid game version userid
        let p2 := finish_sanitize game version refid extid p1
        match format_profile p2 with
        | none => Except.error ()
        | some fp =>
          gap_inner store game version rest p2 (mdel m card) (acc ++ [(userid, some fp)])

/-- The outer loop of `get_any_profiles` over all flattened remote
records: each record's card list is computed from the original record,
then the inner loop consumes requested cards from the reverse map. -/
def gap_outer (store : LocalStore) (game : GameConstants) (version : Int) :
    List Dct → List (String × UserID) → List (UserID × Option Dct) →
    Except Unit (List (String × UserID) × List (UserID × Option Dct))
  | [], m, acc => Except.ok (m, acc)
  | r :: rest, m, acc =>
    match gap_inner store game version (cardsOf r) r m acc with
    | Except.error e => Except.error e
    | Except.ok (_, m2, acc2) => gap_outer store game version rest m2 acc2

/-- `get_any_profiles`: empty input short-circuits; an all-local input
delegates to the store; otherwise local results and the remote fan-out are
merged, and every virtual identity left in the reverse map is reported as
`(identity, none)`. -/
def GlobalUserData.get_any_profiles (store : LocalStore) (clients : List Client)
    (game : GameConstants) (version : Int) (userids : List UserID) :
    Except Unit (List (UserID × Option Dct)) :=
  if userids.length = 0 then Except.ok []
  else
    let remote_ids := userids.filter (fun u => RemoteUser.is_remote u)
    let local_ids := userids.filter (fun u => ! RemoteUser.is_remote u)
    if remote_ids.length = 0 then
      Except.ok (store.get_any_profiles game version local_ids)
    else
      let card_to_userid := mapOf (remote_ids.map (fun u => (RemoteUser.userid_to_card u, u)))
      let local_profiles := store.get_any_profiles game version local_ids
      let remote_profiles :=
        call_clients clients game version IdType.card (remote_ids.map RemoteUser.userid_to_card)
      match gap_outer store game version remote_profiles card_to_userid local_profiles with
      | Except.error e => Except.error e
      | Except.ok (m, acc) => Except.ok (acc ++ m.map (fun kv => (kv.2, (none : Option Dct))))

/-- `sorted([card.upper() for card in profile.get('cards', [])])`. -/
def sortStrings (l : List String) : List String :=
  List.insertionSort (fun a b => a ≤ b) l

/-- The record mutation and normalization performed by `get_all_profiles`
on an accepted record: delete `cards` and write the four mandatory fields
in place, with `version` unconditionally the requested version (the record
is known exact). -/
def gall_sanitized (store : LocalStore) (game : GameConstants) (version : Int)
    (r : Dct) (c : String) : Dct :=
  let userid := RemoteUser.card_to_userid c
  let refid := store.get_refid game version userid
  let extid := store.get_extid game version userid
  mset (mset (mset (mset (mdel r "cards") "game" (Val.vStr game.value))
    "version" (Val.vInt version)) "refid" (Val.vStr refid)) "extid" (Val.vInt extid)

/-- The loop of `get_all_profiles` over the flattened remote records.  The
second component of the result is the post-call state of the caller's
record objects: the source mutates each accepted-so-far record in place
(`del profile['cards']`, then the field writes), without a deep copy. -/
def gall_fold (store : LocalStore) (game : GameConstants) (version : Int)
    (card_to_id : List (String × UserID)) :
    List Dct → List (UserID × Dct) → Except Unit (List (UserID × Dct) × List Dct)
  | [], idp => Except.ok (idp, [])
  | profile :: rest, idp =>
    let cardids := sortStrings (cardsOf profile)
    if cardids.length = 0 then
      Except.map (fun x => (x.1, profile :: x.2))
        (gall_fold store game version card_to_id rest idp)
    else
      let localCards := cardids.filter (fun c => mcontains card_to_id c)
      if localCards.length > 0 then
        Except.map (fun x => (x.1, profile :: x.2))
          (gall_fold store game version card_to_id rest idp)
      else
        match mdelE profile "cards" with
        | Except.error e => Except.error e
        | Except.ok p1 =>
          if ¬ exact_match_of p1 then
            Except.map (fun x => (x.1, p1 :: x.2))
              (gall_fold store game version card_to_id rest idp)
          else
            let c := cardids.headD ""
            let p2 := gall_sanitized store game version profile c
            match format_profile p2 with
            | none => Except.error ()
            | some fp =>
              Except.map (fun x => (x.1, p2 :: x.2))
                (gall_fold store game version card_to_id rest
                  (mset idp (RemoteUser.card_to_userid c) fp))

/-- `get_all_profiles`: seed the card table and the profile table from the
local store, then fold the remote records in, discarding anonymous
records, records with any locally-known card, and non-exact records.  The
second component is the post-call state of the remote records. -/
def GlobalUserData.get_all_profiles (store : LocalStore) (clients : List Client)
    (game : GameConstants) (version : Int) :
    Except Unit (List (UserID × Dct) × List Dct) :=
  let local_cards := store.get_all_cards
  let local_profiles := store.get_all_profiles game version
  let remote_profiles := call_clients clients game version IdType.server []
  let card_to_id := mapOf local_cards
  let id_to_profile := mapOf local_profiles
  gall_fold store game version card_to_id remote_profiles id_to_profile

/-- `from_cardid`: the store's identity when it has a mapping for the
card, otherwise the derived virtual identity. -/
def GlobalUserData.from_cardid (store : LocalStore) (cardid : String) : Option UserID :=
  let userid := store.from_cardid cardid
  match userid with
  | none => some (RemoteUser.card_to_userid cardid)
  | some u => some u

/-- `from_refid`: a pure passthrough to the local store. -/
def GlobalUserData.from_refid (store : LocalStore) (game : GameConstants) (version : Int)
    (refid : String) : Option UserID :=
  store.from_refid game version refid

/-- `from_extid`: a pure passthrough to the local store. -/
def GlobalUserData.from_extid (store : LocalStore) (game : GameConstants) (version : Int)
    (extid : Int) : Option UserID :=
  store.from_extid game version extid

/-- The post-call state of the raw records passed through
`__profile_request`: the source deep-copies each record
(`copy.deepcopy`) before sanitizing it, so the caller's records are
unchanged. -/
def profile_request_records_after (profiles : List Dct) : List Dct := profiles

/-- The post-call state of the raw records passed through
`get_any_profiles`: the source deep-copies each record before sanitizing
it, so the caller's records are unchanged. -/
def get_any_profiles_records_after (profiles : List Dct) : List Dct := profiles

/-- A local store with no mappings and no data: every lookup misses. -/
def store0 : LocalStore :=
  ⟨fun _ _ _ => "ref", fun _ _ _ => 7, fun _ _ _ => none, fun _ _ _ => none,
   fun _ _ _ => [], [], fun _ _ => [], fun _ => none, fun _ _ _ => none, fun _ _ _ => none⟩

/-- A local store whose card table maps every card to local user 1. -/
def store1 : LocalStore :=
  ⟨fun _ _ _ => "ref", fun _ _ _ => 7, fun _ _ _ => none, fun _ _ _ => none,
   fun _ _ _ => [], [], fun _ _ => [], fun _ => some (UserID.loc 1),
   fun _ _ _ => none, fun _ _ _ => none⟩

/-- A raw remote record listing two cards, marked as an exact match. -/
def recAB : Dct :=
  [("cards", Val.vList [Val.vStr "A", Val.vStr "B"]),
   ("match", Val.vStr "exact"),
   ("name", Val.vStr "x")]

/-- A peer that answers every query with the single record `recAB`. -/
def client0 : Client := fun _ _ _ _ => [recAB]

/-- The title-B record of the spec's example: `qpro.head = -1`,
`qpro.hair = 3`. -/
def recQ : Dct :=
  [("qpro", Val.vDict [("head", Val.vInt (-1)), ("hair", Val.vInt 3)])]

/-- An IIDX record carrying only the mandatory fields: no qpro data. -/
def pII : Dct :=
  [("game", Val.vStr "iidx"), ("version", Val.vInt 1),
   ("refid", Val.vStr "r"), ("extid", Val.vInt 2)]

/-- The canonical profile of `pII`. -/
def resII : Dct := (format_profile pII).getD []

/-- A DDR record carrying only the mandatory fields: no area. -/
def pDD : Dct :=
  [("game", Val.vStr "ddr"), ("version", Val.vInt 1),
   ("refid", Val.vStr "r"), ("extid", Val.vInt 2)]

/-- The canonical profile of `pDD`. -/
def resDD : Dct := (format_profile pDD).getD []

/-- A record for card C marked exact. -/
def recE : Dct :=
  [("cards", Val.vList [Val.vStr "C"]), ("match", Val.vStr "exact"), ("name", Val.vStr "n")]

/-- A record for card C marked partial. -/
def recP : Dct :=
  [("cards", Val.vList [Val.vStr "C"]), ("match", Val.vStr "partial")]

/-- A record for an unrelated card X. -/
def recX : Dct := [("cards", Val.vList [Val.vStr "X"])]

/-- The canonical profile produced from `recE` by the request scan. -/
def fpE : Dct :=
  (format_profile (finish_sanitize GameConstants.iidx 1 "ref" 7 (mdel recE "cards"))).getD []

/-- The spec's getAll example record: cards `["b1", "A1"]` (so the
case-normalized sorted list is `["A1", "B1"]`), marked `exact`. -/
def recBA : Dct :=
  [("cards", Val.vList [Val.vStr "b1", Val.vStr "A1"]), ("match", Val.vStr "exact")]

/-- A peer that answers every query with the single record `recX` (card X
only). -/
def clientX : Client := fun _ _ _ _ => [recX]

theorem mget_mset {α β : Type} [DecidableEq α] (m : List (α × β)) (k : α) (v : β) (k2 : α) :
    mget (mset m k v) k2 = if k2 = k then some v else mget m k2 := by
  induction m with
  | nil =>
      simp only [mset, mget]
      rcases eq_or_ne k2 k with rfl | h
      · simp
      · simp [h, Ne.symm h]
  | cons hd t ih =>
      obtain ⟨k0, v0⟩ := hd
      simp only [mset]
      rcases eq_or_ne k0 k with rfl | h0
      · simp only [if_pos rfl, mget]
        rcases eq_or_ne k2 k0 with rfl | h2
        · simp
        · simp [h2, Ne.symm h2]
      · simp only [if_neg h0, mget, ih]
        rcases eq_or_ne k0 k2 with rfl | h2
        · simp [h0]
        · simp [h2]

theorem mget_mdel {α β : Type} [DecidableEq α] (m : List (α × β)) (k : α) (k2 : α) :
    mget (mdel m k) k2 = if k2 = k then none else mget m k2 := by
  induction m with
  | nil => simp [mdel, mget]
  | cons hd t ih =>
      obtain ⟨k0, v0⟩ := hd
      simp only [mdel]
      rcases eq_or_ne k0 k with rfl | h0
      · rw [if_pos rfl, ih]
        rcases eq_or_ne k2 k0 with rfl | h2
        · simp
        · simp [mget, h2, Ne.symm h2]
      · rw [if_neg h0]
        rcases eq_or_ne k0 k2 with rfl | h2
        · simp [mget, ih, h0]
        · simp [mget, ih, h2]

theorem mget_mem {α β : Type} [DecidableEq α] (m : List (α × β)) (k : α) (v : β)
    (h : mget m k = some v) : (k, v) ∈ m := by
  induction m with
  | nil => simp [mget] at h
  | cons hd t ih =>
      obtain ⟨k0, v0⟩ := hd
      simp only [mget] at h
      rcases eq_or_ne k0 k with rfl | h0
      · rw [if_pos rfl] at h
        obtain rfl : v0 = v := by injection h
        exact List.mem_cons_self _ _
      · rw [if_neg h0] at h
        exact List.mem_cons_of_mem _ (ih h)

theorem mem_mset {α β : Type} [DecidableEq α] (m : List (α × β)) (k : α) (v : β)
    (kv : α × β) (h : kv ∈ mset m k v) : kv = (k, v) ∨ kv ∈ m := by
  induction m with
  | nil => simpa [mset] using h
  | cons hd t ih =>
      obtain ⟨k0, v0⟩ := hd
      simp only [mset] at h
      rcases eq_or_ne k0 k with rfl | h0
      · rw [if_pos rfl] at h
        rcases List.mem_cons.mp h with rfl | hm
        · exact Or.inl rfl
        · exact Or.inr (List.mem_cons_of_mem _ hm)
      · rw [if_neg h0] at h
        rcases List.mem_cons.mp h with rfl | hm
        · exact Or.inr (List.mem_cons_self _ _)
        · rcases ih hm with h1 | h1
          · exact Or.inl h1
          · exact Or.inr (List.mem_cons_of_mem _ h1)

theorem mdelE_ok {α β : Type} [DecidableEq α] (m : List (α × β)) (k : α)
    (h : mcontains m k = true) : mdelE m k = Except.ok (mdel m k) := by
  simp [mdelE, h]

theorem exact_match_mdel_cards (r : Dct) :
    exact_match_of (mdel r "cards") = exact_match_of r := by
  simp [exact_match_of, mget_mdel]

theorem cards_present_of_mem (r : Dct) (c : String) (h : c ∈ cardsOf r) :
    mcontains r "cards" = true := by
  unfold cardsOf at h
  unfold mcontains
  cases hm : mget r "cards" with
  | none => rw [hm] at h; simp at h
  | some v =>
      cases v <;> rw [hm] at h <;> simp at h ⊢

theorem fromVal_value (g : GameConstants) :
    GameConstants.fromVal (Val.vStr g.value) = some g := by
  cases g <;> rfl

theorem mget_dupdate_none (b u : Dct) (k : String) (h : mget u k = none) :
    mget (dupdate b u) k = mget b k := by
  induction u generalizing b with
  | nil => rfl
  | cons hd t ih =>
      obtain ⟨k0, v0⟩ := hd
      simp only [mget] at h
      rcases eq_or_ne k0 k with rfl | h0
      · rw [if_pos rfl] at h; exact absurd h (by simp)
      · rw [if_neg h0] at h
        show mget (dupdate (mset b k0 v0) t) k = mget b k
        rw [ih _ h, mget_mset, if_neg (Ne.symm h0)]

theorem mget_format_ddr_ne (p : Dct) (k : String) (h : k ≠ "area") :
    mget (format_ddr_profile p) k = none := by
  simp only [format_ddr_profile]
  split
  · simp [mget_mset, mget, Ne.symm h]
  · simp [mget]

theorem mget_format_popn_ne (p : Dct) (k : String) (h : k ≠ "chara") :
    mget (format_popn_profile p) k = none := by
  simp only [format_popn_profile]
  split
  · simp [mget_mset, mget, Ne.symm h]
  · simp [mget]

theorem mget_format_reflec_ne (p : Dct) (k : String) (h : k ≠ "config") :
    mget (format_reflec_profile p) k = none := by
  simp only [format_reflec_profile]
  split
  · simp [mget_mset, mget, Ne.symm h]
  · simp [mget]

theorem mget_format_iidx_ne (p : Dct) (k : String) (h1 : k ≠ "qpro") (h2 : k ≠ "pid") :
    mget (format_iidx_profile p) k = none := by
  simp only [format_iidx_profile, setQpro]
  repeat' split
  all_goals simp [mget_mset, mget, Ne.symm h1, Ne.symm h2]

theorem format_profile_eq_some (p : Dct) (g : GameConstants) (gamev vv rv ev : Val)
    (hg : mget p "game" = some gamev)
    (hf : GameConstants.fromVal gamev = some g)
    (hv : mget p "version" = some vv)
    (hr : mget p "refid" = some rv)
    (he : mget p "extid" = some ev) :
    ∃ res, format_profile p = some res := by
  simp only [format_profile, hg, hv, hr, he, hf]
  exact ⟨_, rfl⟩

theorem format_profile_version (p res : Dct) (h : format_profile p = some res) :
    mget res "version" = mget p "version" := by
  cases hg : mget p "game" with
  | none => simp [format_profile, hg] at h
  | some gamev =>
  cases hv : mget p "version" with
  | none => simp [format_profile, hg, hv] at h
  | some versionv =>
  cases hr : mget p "refid" with
  | none => simp [format_profile, hg, hv, hr] at h
  | some refidv =>
  cases he : mget p "extid" with
  | none => simp [format_profile, hg, hv, hr, he] at h
  | some extidv =>
  cases hf : GameConstants.fromVal gamev with
  | none => simp [format_profile, hg, hv, hr, he, hf] at h
  | some g =>
  simp only [format_profile, hg, hv, hr, he, hf, Option.some.injEq] at h
  subst h
  cases g <;>
    simp [mget_dupdate_none, mget_format_ddr_ne, mget_format_iidx_ne, mget_format_popn_ne,
      mget_format_reflec_ne, format_jubeat_profile, format_museca_profile, format_sdvx_profile,
      mget, hv]

theorem mget_finish_sanitize_game (gm : GameConstants) (version : Int) (refid : String)
    (extid : Int) (p1 : Dct) :
    mget (finish_sanitize gm version refid extid p1) "game" = some (Val.vStr gm.value) := by
  simp [finish_sanitize, mget_mset]

theorem mget_finish_sanitize_version (gm : GameConstants) (version : Int) (refid : String)
    (extid : Int) (p1 : Dct) :
    mget (finish_sanitize gm version refid extid p1) "version" =
      some (Val.vInt (if exact_match_of p1 then version else 0)) := by
  simp [finish_sanitize, mget_mset]

theorem mget_finish_sanitize_refid (gm : GameConstants) (version : Int) (refid : String)
    (extid : Int) (p1 : Dct) :
    mget (finish_sanitize gm version refid extid p1) "refid" = some (Val.vStr refid) := by
  simp [finish_sanitize, mget_mset]

theorem mget_finish_sanitize_extid (gm : GameConstants) (version : Int) (refid : String)
    (extid : Int) (p1 : Dct) :
    mget (finish_sanitize gm version refid extid p1) "extid" = some (Val.vInt extid) := by
  simp [finish_sanitize, mget_mset]

theorem mget_gall_sanitized_game (store : LocalStore) (gm : GameConstants) (version : Int)
    (r : Dct) (c : String) :
    mget (gall_sanitized store gm version r c) "game" = some (Val.vStr gm.value) := by
  simp [gall_sanitized, mget_mset]

theorem mget_gall_sanitized_version (store : LocalStore) (gm : GameConstants) (version : Int)
    (r : Dct) (c : String) :
    mget (gall_sanitized store gm version r c) "version" = some (Val.vInt version) := by
  simp [gall_sanitized, mget_mset]

theorem mget_gall_sanitized_refid (store : LocalStore) (gm : GameConstants) (version : Int)
    (r : Dct) (c : String) :
    mget (gall_sanitized store gm version r c) "refid" =
      some (Val.vStr (store.get_refid gm version (RemoteUser.card_to_userid c))) := by
  simp [gall_sanitized, mget_mset]

theorem mget_gall_sanitized_extid (store : LocalStore) (gm : GameConstants) (version : Int)
    (r : Dct) (c : String) :
    mget (gall_sanitized store gm version r c) "extid" =
      some (Val.vInt (store.get_extid gm version (RemoteUser.card_to_userid c))) := by
  simp [gall_sanitized, mget_mset]

theorem mget_dupdate_format_iidx_qpro (p b : Dct) :
    mget (dupdate b (format_iidx_profile p)) "qpro" = mget (format_iidx_profile p) "qpro" := by
  simp only [format_iidx_profile, setQpro]
  repeat' split
  all_goals simp [dupdate, mset, get_dict, mget, mget_mset]

theorem format_iidx_qpro_isSome (p : Dct) :
    ∃ q, mget (format_iidx_profile p) "qpro" = some (Val.vDict q) := by
  simp only [format_iidx_profile, setQpro]
  repeat' split
  all_goals exact ⟨_, rfl⟩

theorem format_iidx_qpro_empty (p : Dct)
    (h1 : get_int (get_dict p "qpro") "head" (-1) = -1)
    (h2 : get_int (get_dict p "qpro") "hair" (-1) = -1)
    (h3 : get_int (get_dict p "qpro") "face" (-1) = -1)
    (h4 : get_int (get_dict p "qpro") "body" (-1) = -1)
    (h5 : get_int (get_dict p "qpro") "hand" (-1) = -1) :
    mget (format_iidx_profile p) "qpro" = some (Val.vDict []) := by
  simp only [format_iidx_profile, setQpro, h1, h2, h3, h4, h5, ne_eq, not_true_eq_false,
    if_false]
  split
  all_goals simp [mget_mset, mget]

/-- Claim C1: in `get_any_profiles`, when one raw remote record's card
list contains the cards of several requested virtual identities, every
card should be matched from its own copy of the record with no exception.
The code does not do this: the loop variable `profile` is rebound to the
sanitized copy, so the second requested card of the same record hits
`del profile['cards']` on a dict that no longer has the key and the call
raises `KeyError`.  Here the single record `recAB` carries the cards of
both requested virtual identities and the operation errors instead of
returning two matches. -/
theorem c1_shared_record_double_match_raises :
    GlobalUserData.get_any_profiles store0 [client0] GameConstants.iidx 1
      [UserID.remote "A", UserID.remote "B"] = Except.error () := by
  rfl

/-- Claim C2 counterexample: `from_refid` does not fall back to a virtual
identity; with a store that has no refid mapping it returns an absent
result, contradicting the claim that the three helpers never do. -/
theorem c2_counterexample :
    GlobalUserData.from_refid store0 GameConstants.iidx 1 "someref" = none := by
  rfl

/-- Claim C2 (amended): `from_cardid` returns the local store's identity
when the store has a mapping and otherwise falls back to the virtual
identity derived from the card, never an absent result; `from_refid` and
`from_extid` are pure passthroughs to the local store and return whatever
the store returns, including an absent result. -/
theorem c2_lookup_helpers :
    (∀ (store : LocalStore) (c : String) (u : UserID),
      store.from_cardid c = some u → GlobalUserData.from_cardid store c = some u)
    ∧ (∀ (store : LocalStore) (c : String),
      store.from_cardid c = none →
      GlobalUserData.from_cardid store c = some (RemoteUser.card_to_userid c))
    ∧ (∀ (store : LocalStore) (gm : GameConstants) (version : Int) (r : String),
      GlobalUserData.from_refid store gm version r = store.from_refid gm version r)
    ∧ (∀ (store : LocalStore) (gm : GameConstants) (version : Int) (e : Int),
      GlobalUserData.from_extid store gm version e = store.from_extid gm version e) := by
  refine ⟨?_, ?_, ?_, ?_⟩
  · intro store c u h
    simp [GlobalUserData.from_cardid, h]
  · intro store c h
    simp [GlobalUserData.from_cardid, h]
  · intro store gm version r
    rfl
  · intro store gm version e
    rfl

/-- Witness for the amended C2 at concrete stores: a mapped card returns
the local identity, an unmapped card returns the derived virtual one. -/
theorem c2_lookup_helpers_witness :
    GlobalUserData.from_cardid store1 "C" = some (UserID.loc 1)
    ∧ GlobalUserData.from_cardid store0 "C" = some (RemoteUser.card_to_userid "C") :=
  ⟨c2_lookup_helpers.1 store1 "C" (UserID.loc 1) rfl,
   c2_lookup_helpers.2.1 store0 "C" rfl⟩

theorem get_dict_setQpro (u : Dct) (k : String) (v : Val) :
    get_dict (setQpro u k v) "qpro" = mset (get_dict u "qpro") k v := by
  simp [setQpro, get_dict, mget_mset]

theorem get_dict_mset_pid (u : Dct) (w : Val) :
    get_dict (mset u "pid" w) "qpro" = get_dict u "qpro" := by
  simp [get_dict, mget_mset]

theorem get_dict_qpro_base : get_dict ([("qpro", Val.vDict [])] : Dct) "qpro" = [] := rfl

theorem iidx_qpro_field_head (p : Dct) :
    mget (get_dict (format_iidx_profile p) "qpro") "head" =
      (if get_int (get_dict p "qpro") "head" (-1) = -1 then none
       else some (Val.vInt (get_int (get_dict p "qpro") "head" (-1)))) := by
  by_cases h : get_int (get_dict p "qpro") "head" (-1) = -1 <;>
    simp [h, format_iidx_profile, get_dict_setQpro, get_dict_mset_pid, get_dict_qpro_base,
      apply_ite (fun d : Dct => get_dict d "qpro"),
      apply_ite (fun d : Dct => mget d "head"),
      mget_mset, mget]

theorem iidx_qpro_field_hair (p : Dct) :
    mget (get_dict (format_iidx_profile p) "qpro") "hair" =
      (if get_int (get_dict p "qpro") "hair" (-1) = -1 then none
       else some (Val.vInt (get_int (get_dict p "qpro") "hair" (-1)))) := by
  by_cases h : get_int (get_dict p "qpro") "hair" (-1) = -1 <;>
    simp [h, format_iidx_profile, get_dict_setQpro, get_dict_mset_pid, get_dict_qpro_base,
      apply_ite (fun d : Dct => get_dict d "qpro"),
      apply_ite (fun d : Dct => mget d "hair"),
      mget_mset, mget]

theorem iidx_qpro_field_face (p : Dct) :
    mget (get_dict (format_iidx_profile p) "qpro") "face" =
      (if get_int (get_dict p "qpro") "face" (-1) = -1 then none
       else some (Val.vInt (get_int (get_dict p "qpro") "face" (-1)))) := by
  by_cases h : get_int (get_dict p "qpro") "face" (-1) = -1 <;>
    simp [h, format_iidx_profile, get_dict_setQpro, get_dict_mset_pid, get_dict_qpro_base,
      apply_ite (fun d : Dct => get_dict d "qpro"),
      apply_ite (fun d : Dct => mget d "face"),
      mget_mset, mget]

theorem iidx_qpro_field_body (p : Dct) :
    mget (get_dict (format_iidx_profile p) "qpro") "body" =
      (if get_int (get_dict p "qpro") "body" (-1) = -1 then none
       else some (Val.vInt (get_int (get_dict p "qpro") "body" (-1)))) := by
  by_cases h : get_int (get_dict p "qpro") "body" (-1) = -1 <;>
    simp [h, format_iidx_profile, get_dict_setQpro, get_dict_mset_pid, get_dict_qpro_base,
      apply_ite (fun d : Dct => get_dict d "qpro"),
      apply_ite (fun d : Dct => mget d "body"),
      mget_mset, mget]

theorem iidx_qpro_field_hand (p : Dct) :
    mget (get_dict (format_iidx_profile p) "qpro") "hand" =
      (if get_int (get_dict p "qpro") "hand" (-1) = -1 then none
       else some (Val.vInt (get_int (get_dict p "qpro") "hand" (-1)))) := by
  by_cases h : get_int (get_dict p "qpro") "hand" (-1) = -1 <;>
    simp [h, format_iidx_profile, get_dict_setQpro, get_dict_mset_pid, get_dict_qpro_base,
      apply_ite (fun d : Dct => get_dict d "qpro"),
      apply_ite (fun d : Dct => mget d "hand"),
      mget_mset, mget]

/-- Claim C8: IIDX normalization copies each of the five qpro sub-fields
(head, hair, face, body, hand) into the output qpro map exactly when the
sub-field is present and not `-1`; in particular the record with
`qpro.head = -1, qpro.hair = 3` yields a qpro map containing `hair = 3`
and no `head` entry. -/
theorem c8_iidx_qpro_sentinel_fields :
    (∀ p, mget (get_dict (format_iidx_profile p) "qpro") "head" =
      (if get_int (get_dict p "qpro") "head" (-1) = -1 then none
       else some (Val.vInt (get_int (get_dict p "qpro") "head" (-1)))))
    ∧ (∀ p, mget (get_dict (format_iidx_profile p) "qpro") "hair" =
      (if get_int (get_dict p "qpro") "hair" (-1) = -1 then none
       else some (Val.vInt (get_int (get_dict p "qpro") "hair" (-1)))))
    ∧ (∀ p, mget (get_dict (format_iidx_profile p) "qpro") "face" =
      (if get_int (get_dict p "qpro") "face" (-1) = -1 then none
       else some (Val.vInt (get_int (get_dict p "qpro") "face" (-1)))))
    ∧ (∀ p, mget (get_dict (format_iidx_profile p) "qpro") "body" =
      (if get_int (get_dict p "qpro") "body" (-1) = -1 then none
       else some (Val.vInt (get_int (get_dict p "qpro") "body" (-1)))))
    ∧ (∀ p, mget (get_dict (format_iidx_profile p) "qpro") "hand" =
      (if get_int (get_dict p "qpro") "hand" (-1) = -1 then none
       else some (Val.vInt (get_int (get_dict p "qpro") "hand" (-1)))))
    ∧ mget (get_dict (format_iidx_profile recQ) "qpro") "hair" = some (Val.vInt 3)
    ∧ mget (get_dict (format_iidx_profile recQ) "qpro") "head" = none :=
  ⟨iidx_qpro_field_head, iidx_qpro_field_hair, iidx_qpro_field_face,
   iidx_qpro_field_body, iidx_qpro_field_hand, rfl, rfl⟩

theorem format_profile_res_iidx (p res : Dct) (h : format_profile p = some res)
    (hg : mget p "game" = some (Val.vStr "iidx")) :
    mget res "qpro" = mget (format_iidx_profile p) "qpro" := by
  cases hv : mget p "version" with
  | none => simp [format_profile, hg, hv] at h
  | some versionv =>
  cases hr : mget p "refid" with
  | none => simp [format_profile, hg, hv, hr] at h
  | some refidv =>
  cases he : mget p "extid" with
  | none => simp [format_profile, hg, hv, hr, he] at h
  | some extidv =>
  simp [format_profile, hg, hv, hr, he, GameConstants.fromVal] at h
  subst h
  exact mget_dupdate_format_iidx_qpro p _

theorem format_profile_res_ddr (p res : Dct) (h : format_profile p = some res)
    (hg : mget p "game" = some (Val.vStr "ddr")) (ha : get_int p "area" (-1) = -1) :
    mget res "area" = none := by
  cases hv : mget p "version" with
  | none => simp [format_profile, hg, hv] at h
  | some versionv =>
  cases hr : mget p "refid" with
  | none => simp [format_profile, hg, hv, hr] at h
  | some refidv =>
  cases he : mget p "extid" with
  | none => simp [format_profile, hg, hv, hr, he] at h
  | some extidv =>
  simp [format_profile, hg, hv, hr, he, GameConstants.fromVal] at h
  subst h
  simp [format_ddr_profile, ha, dupdate, mget]

/-- Claim C10: for every IIDX raw record the canonical profile contains a
`qpro` key, bound to the empty map when none of the five sub-fields is
present and not `-1`; by contrast the other optional per-game fields are
omitted entirely when absent, e.g. a DDR profile with no usable `area` has
no `area` key. -/
theorem c10_iidx_qpro_always_present :
    (∀ p res, format_profile p = some res → mget p "game" = some (Val.vStr "iidx") →
      ∃ q, mget res "qpro" = some (Val.vDict q))
    ∧ (∀ p res, format_profile p = some res → mget p "game" = some (Val.vStr "iidx") →
      get_int (get_dict p "qpro") "head" (-1) = -1 →
      get_int (get_dict p "qpro") "hair" (-1) = -1 →
      get_int (get_dict p "qpro") "face" (-1) = -1 →
      get_int (get_dict p "qpro") "body" (-1) = -1 →
      get_int (get_dict p "qpro") "hand" (-1) = -1 →
      mget res "qpro" = some (Val.vDict []))
    ∧ (∀ p res, format_profile p = some res → mget p "game" = some (Val.vStr "ddr") →
      get_int p "area" (-1) = -1 → mget res "area" = none) := by
  refine ⟨?_, ?_, ?_⟩
  · intro p res h hg
    rw [format_profile_res_iidx p res h hg]
    exact format_iidx_qpro_isSome p
  · intro p res h hg h1 h2 h3 h4 h5
    rw [format_profile_res_iidx p res h hg]
    exact format_iidx_qpro_empty p h1 h2 h3 h4 h5
  · intro p res h hg ha
    exact format_profile_res_ddr p res h hg ha

/-- Witness for C10 at concrete records: the empty-qpro IIDX record keeps
an (empty) qpro map, the area-less DDR record has no area key. -/
theorem c10_iidx_qpro_always_present_witness :
    (∃ q, mget resII "qpro" = some (Val.vDict q))
    ∧ mget resII "qpro" = some (Val.vDict [])
    ∧ mget resDD "area" = none :=
  ⟨c10_iidx_qpro_always_present.1 pII resII rfl rfl,
   c10_iidx_qpro_always_present.2.1 pII resII rfl rfl rfl rfl rfl rfl rfl,
   c10_iidx_qpro_always_present.2.2 pDD resDD rfl rfl rfl⟩

/-- Claim C3: with `exact=True`, `__profile_request` never returns a
profile built from a record whose match marker is `partial` (or absent):
any returned profile comes from a record in the response list that
contains the target card and is marked `exact`, and a rejected partial
record makes the scan continue with the remaining records instead of
stopping with no result; `get_profile` on a virtual identity is exactly
this strict scan over the flattened peer responses. -/
theorem c3_strict_marker_gate :
    (∀ (gm : GameConstants) (version : Int) (refid : String) (extid : Int)
       (cardid : String) (records : List Dct) (fp : Dct),
       profile_request_scan gm version refid extid true cardid records = Except.ok (some fp) →
       ∃ r ∈ records, cardid ∈ cardsOf r ∧ exact_match_of r = true ∧
         format_profile (finish_sanitize gm version refid extid (mdel r "cards")) = some fp)
    ∧ (∀ (gm : GameConstants) (version : Int) (refid : String) (extid : Int)
       (cardid : String) (r : Dct) (rest : List Dct),
       cardid ∈ cardsOf r → exact_match_of r = false →
       profile_request_scan gm version refid extid true cardid (r :: rest) =
         profile_request_scan gm version refid extid true cardid rest)
    ∧ (∀ (store : LocalStore) (clients : List Client) (gm : GameConstants) (version : Int)
       (c : String),
       GlobalUserData.get_profile store clients gm version (UserID.remote c) =
         profile_request_scan gm version (store.get_refid gm version (UserID.remote c))
           (store.get_extid gm version (UserID.remote c)) true c
           (call_clients clients gm version IdType.card [c])) := by
  refine ⟨?_, ?_, ?_⟩
  · intro gm version refid extid cardid records
    induction records with
    | nil => intro fp h; simp [profile_request_scan] at h
    | cons r rest ih =>
      intro fp h
      by_cases hc : cardid ∈ cardsOf r
      · simp only [profile_request_scan, hc, if_true] at h
        rw [mdelE_ok _ _ (cards_present_of_mem r cardid hc)] at h
        by_cases he : exact_match_of (mdel r "cards") = true
        · simp only [he, not_true_eq_false, and_false, if_false] at h
          cases hf : format_profile (finish_sanitize gm version refid extid (mdel r "cards")) with
          | none => rw [hf] at h; simp at h
          | some fp2 =>
            rw [hf] at h
            simp only [Except.ok.injEq, Option.some.injEq] at h
            subst h
            exact ⟨r, List.mem_cons_self r rest, hc, by rw [← exact_match_mdel_cards]; exact he, hf⟩
        · simp only [he] at h
          simp at h
          obtain ⟨r2, hr2, h1, h2, h3⟩ := ih fp h
          exact ⟨r2, List.mem_cons_of_mem r hr2, h1, h2, h3⟩
      · simp only [profile_request_scan, hc, if_false] at h
        obtain ⟨r2, hr2, h1, h2, h3⟩ := ih fp h
        exact ⟨r2, List.mem_cons_of_mem r hr2, h1, h2, h3⟩
  · intro gm version refid extid cardid r rest hc he
    simp only [profile_request_scan, hc, if_true]
    rw [mdelE_ok _ _ (cards_present_of_mem r cardid hc)]
    have he2 : exact_match_of (mdel r "cards") = false := by
      rw [exact_match_mdel_cards]; exact he
    simp [he2]
  · intro store clients gm version c
    rfl

/-- Witness for C3: with a partial record ahead of an exact one for the
same card, the strict scan skips the partial record and the returned
profile comes from the exact record. -/
theorem c3_strict_marker_gate_witness :
    (∃ r ∈ [recP, recE], "C" ∈ cardsOf r ∧ exact_match_of r = true ∧
      format_profile (finish_sanitize GameConstants.iidx 1 "ref" 7 (mdel r "cards")) = some fpE)
    ∧ profile_request_scan GameConstants.iidx 1 "ref" 7 true "C" [recP, recE] =
        profile_request_scan GameConstants.iidx 1 "ref" 7 true "C" [recE] :=
  ⟨c3_strict_marker_gate.1 GameConstants.iidx 1 "ref" 7 "C" [recP, recE] fpE (by rfl),
   c3_strict_marker_gate.2.1 GameConstants.iidx 1 "ref" 7 "C" recP [recE]
     (by decide) (by rfl)⟩

/-- Claim C4: with `exact=False`, `__profile_request` returns the
normalized form of the first record, in flattened peer order, whose
case-normalized card list contains the derived card; the returned
profile's `version` field is the requested version when the record's
marker is `exact` and the sentinel `0` otherwise; when no record contains
the card the result is the absent value, not an error; `get_any_profile`
on a virtual identity is exactly this non-strict scan over the flattened
peer responses. -/
theorem c4_nonstrict_first_match :
    (∀ (gm : GameConstants) (version : Int) (refid : String) (extid : Int)
       (cardid : String) (r : Dct) (rest : List Dct), cardid ∉ cardsOf r →
       profile_request_scan gm version refid extid false cardid (r :: rest) =
         profile_request_scan gm version refid extid false cardid rest)
    ∧ (∀ (gm : GameConstants) (version : Int) (refid : String) (extid : Int)
       (cardid : String) (r : Dct) (rest : List Dct), cardid ∈ cardsOf r →
       ∃ fp, profile_request_scan gm version refid extid false cardid (r :: rest) =
           Except.ok (some fp) ∧
         format_profile (finish_sanitize gm version refid extid (mdel r "cards")) = some fp ∧
         mget fp "version" = some (Val.vInt (if exact_match_of r then version else 0)))
    ∧ (∀ (gm : GameConstants) (version : Int) (refid : String) (extid : Int)
       (cardid : String) (records : List Dct),
       (∀ r ∈ records, cardid ∉ cardsOf r) →
       profile_request_scan gm version refid extid false cardid records = Except.ok none)
    ∧ (∀ (store : LocalStore) (clients : List Client) (gm : GameConstants) (version : Int)
       (c : String),
       GlobalUserData.get_any_profile store clients gm version (UserID.remote c) =
         profile_request_scan gm version (store.get_refid gm version (UserID.remote c))
           (store.get_extid gm version (UserID.remote c)) false c
           (call_clients clients gm version IdType.card [c])) := by
  refine ⟨?_, ?_, ?_, ?_⟩
  · intro gm version refid extid cardid r rest hc
    simp only [profile_request_scan, hc, if_false]
  · intro gm version refid extid cardid r rest hc
    obtain ⟨fp, hfp⟩ :=
      format_profile_eq_some (finish_sanitize gm version refid extid (mdel r "cards")) gm
        (Val.vStr gm.value)
        (Val.vInt (if exact_match_of (mdel r "cards") then version else 0))
        (Val.vStr refid) (Val.vInt extid)
        (mget_finish_sanitize_game gm version refid extid (mdel r "cards"))
        (fromVal_value gm)
        (mget_finish_sanitize_version gm version refid extid (mdel r "cards"))
        (mget_finish_sanitize_refid gm version refid extid (mdel r "cards"))
        (mget_finish_sanitize_extid gm version refid extid (mdel r "cards"))
    refine ⟨fp, ?_, hfp, ?_⟩
    · simp only [profile_request_scan, hc, if_true]
      rw [mdelE_ok _ _ (cards_present_of_mem r cardid hc)]
      simp [hfp]
    · rw [format_profile_version _ fp hfp, mget_finish_sanitize_version,
        exact_match_mdel_cards]
  · intro gm version refid extid cardid records h
    induction records with
    | nil => rfl
    | cons r rest ih =>
      have hc : cardid ∉ cardsOf r := h r (List.mem_cons_self r rest)
      simp only [profile_request_scan, hc, if_false]
      exact ih (fun r2 hr2 => h r2 (List.mem_cons_of_mem r hr2))
  · intro store clients gm version c
    rfl

/-- Witness for C4: an unrelated record is skipped, a partial record for
the card is accepted with version 0, an all-miss response yields the
absent value, and `get_any_profile` agrees with the scan on a concrete
store and peer. -/
theorem c4_nonstrict_first_match_witness :
    (profile_request_scan GameConstants.iidx 1 "ref" 7 false "C" [recX, recE] =
       profile_request_scan GameConstants.iidx 1 "ref" 7 false "C" [recE])
    ∧ (∃ fp, profile_request_scan GameConstants.iidx 1 "ref" 7 false "C" (recP :: []) =
         Except.ok (some fp) ∧
       format_profile (finish_sanitize GameConstants.iidx 1 "ref" 7 (mdel recP "cards")) =
         some fp ∧
       mget fp "version" = some (Val.vInt (if exact_match_of recP then 1 else 0)))
    ∧ profile_request_scan GameConstants.iidx 1 "ref" 7 false "C" [recX] = Except.ok none
    ∧ GlobalUserData.get_any_profile store0 [client0] GameConstants.iidx 1
        (UserID.remote "A") =
      profile_request_scan GameConstants.iidx 1
        (store0.get_refid GameConstants.iidx 1 (UserID.remote "A"))
        (store0.get_extid GameConstants.iidx 1 (UserID.remote "A")) false "A"
        (call_clients [client0] GameConstants.iidx 1 IdType.card ["A"]) :=
  ⟨c4_nonstrict_first_match.1 GameConstants.iidx 1 "ref" 7 "C" recX [recE] (by decide),
   c4_nonstrict_first_match.2.1 GameConstants.iidx 1 "ref" 7 "C" recP [] (by decide),
   c4_nonstrict_first_match.2.2.1 GameConstants.iidx 1 "ref" 7 "C" [recX] (by decide),
   c4_nonstrict_first_match.2.2.2 store0 [client0] GameConstants.iidx 1 "A"⟩

theorem mem_sortStrings (l : List String) (x : String) :
    x ∈ sortStrings l ↔ x ∈ l :=
  (List.perm_insertionSort (fun a b => a ≤ b) l).mem_iff

theorem sortStrings_head_min (l : List String) (c : String) (cs : List String)
    (h : sortStrings l = c :: cs) (x : String) (hx : x ∈ l) : c ≤ x := by
  have hs : List.Sorted (fun a b : String => a ≤ b) (sortStrings l) :=
    List.sorted_insertionSort _ l
  rw [h] at hs
  have hx2 : x ∈ c :: cs := by
    rw [← h, mem_sortStrings]
    exact hx
  rcases List.mem_cons.mp hx2 with rfl | hx3
  · exact le_refl x
  · exact List.rel_of_sorted_cons hs x hx3

theorem gall_fold_nonexact (store : LocalStore) (gm : GameConstants) (version : Int)
    (card_to_id : List (String × UserID)) (idp : List (UserID × Dct))
    (r : Dct) (rest : List Dct)
    (hne : cardsOf r ≠ [])
    (hup : ∀ x ∈ cardsOf r, mcontains card_to_id x = false)
    (he : exact_match_of r = false) :
    gall_fold store gm version card_to_id (r :: rest) idp =
      Except.map (fun x => (x.1, mdel r "cards" :: x.2))
        (gall_fold store gm version card_to_id rest idp) := by
  obtain ⟨c, hc⟩ := List.exists_mem_of_ne_nil _ hne
  have hlen : ¬ (sortStrings (cardsOf r)).length = 0 := by
    rw [List.length_eq_zero]
    intro h0
    have : c ∈ sortStrings (cardsOf r) := (mem_sortStrings _ c).mpr hc
    rw [h0] at this
    simp at this
  have hfil : (sortStrings (cardsOf r)).filter (fun c2 => mcontains card_to_id c2) = [] := by
    rw [List.filter_eq_nil_iff]
    intro a ha
    have : mcontains card_to_id a = false := hup a ((mem_sortStrings _ a).mp ha)
    simp [this]
  have he2 : exact_match_of (mdel r "cards") = false := by
    rw [exact_match_mdel_cards]
    exact he
  simp only [gall_fold, hlen, if_false, hfil, List.length_nil, lt_irrefl]
  rw [mdelE_ok _ _ (cards_present_of_mem r c hc)]
  simp [he2]

/-- Claim C5: in `get_all_profiles`, a remote record whose card list
contains at least one card mapped in the local card table is discarded in
its entirety (even when its marker is `exact`, since the marker is never
consulted on this path): the profile table is exactly what it would be
without the record, and the record itself is left unmutated. -/
theorem c5_local_card_discards_record :
    ∀ (store : LocalStore) (gm : GameConstants) (version : Int)
      (card_to_id : List (String × UserID)) (idp : List (UserID × Dct))
      (r : Dct) (rest : List Dct) (c : String),
      c ∈ cardsOf r → mcontains card_to_id c = true →
      gall_fold store gm version card_to_id (r :: rest) idp =
        Except.map (fun x => (x.1, r :: x.2))
          (gall_fold store gm version card_to_id rest idp) := by
  intro store gm version card_to_id idp r rest c hc hl
  have hmem : c ∈ sortStrings (cardsOf r) := (mem_sortStrings _ c).mpr hc
  have hlen : ¬ (sortStrings (cardsOf r)).length = 0 := by
    rw [List.length_eq_zero]
    intro h0
    rw [h0] at hmem
    simp at hmem
  have hfl : 0 <
      ((sortStrings (cardsOf r)).filter (fun c2 => mcontains card_to_id c2)).length := by
    have hin : c ∈ (sortStrings (cardsOf r)).filter (fun c2 => mcontains card_to_id c2) :=
      List.mem_filter.mpr ⟨hmem, hl⟩
    exact List.length_pos.mpr (List.ne_nil_of_mem hin)
  simp only [gall_fold, hlen, if_false, gt_iff_lt, hfl, if_true]

/-- Witness for C5: a record for locally-known card C, marked `exact`, is
dropped whole. -/
theorem c5_local_card_discards_record_witness :
    gall_fold store0 GameConstants.iidx 1 [("C", UserID.loc 5)] [recE] [] =
      Except.map (fun x => (x.1, recE :: x.2))
        (gall_fold store0 GameConstants.iidx 1 [("C", UserID.loc 5)] [] []) :=
  c5_local_card_discards_record store0 GameConstants.iidx 1 [("C", UserID.loc 5)] [] recE []
    "C" (by decide) (by rfl)

/-- Claim C6: in `get_all_profiles`, an `exact` record with no locally
known card yields exactly one virtual identity, derived from the
lexicographically smallest of its uppercased cards, and the normalized
profile's `version` is the requested version; a record with an empty card
list is discarded unchanged; a non-`exact` record is discarded without
creating any identity. -/
theorem c6_exact_unknown_record :
    (∀ (store : LocalStore) (gm : GameConstants) (version : Int)
       (card_to_id : List (String × UserID)) (idp : List (UserID × Dct))
       (r : Dct) (rest : List Dct) (c : String) (cs : List String),
       sortStrings (cardsOf r) = c :: cs →
       (∀ x ∈ cardsOf r, mcontains card_to_id x = false) →
       exact_match_of r = true →
       ∃ fp,
         format_profile (gall_sanitized store gm version r c) = some fp ∧
         mget fp "version" = some (Val.vInt version) ∧
         (∀ x ∈ cardsOf r, c ≤ x) ∧
         gall_fold store gm version card_to_id (r :: rest) idp =
           Except.map (fun x => (x.1, gall_sanitized store gm version r c :: x.2))
             (gall_fold store gm version card_to_id rest
               (mset idp (RemoteUser.card_to_userid c) fp)))
    ∧ (∀ (store : LocalStore) (gm : GameConstants) (version : Int)
       (card_to_id : List (String × UserID)) (idp : List (UserID × Dct))
       (r : Dct) (rest : List Dct), cardsOf r = [] →
       gall_fold store gm version card_to_id (r :: rest) idp =
         Except.map (fun x => (x.1, r :: x.2))
           (gall_fold store gm version card_to_id rest idp))
    ∧ (∀ (store : LocalStore) (gm : GameConstants) (version : Int)
       (card_to_id : List (String × UserID)) (idp : List (UserID × Dct))
       (r : Dct) (rest : List Dct), cardsOf r ≠ [] →
       (∀ x ∈ cardsOf r, mcontains card_to_id x = false) →
       exact_match_of r = false →
       gall_fold store gm version card_to_id (r :: rest) idp =
         Except.map (fun x => (x.1, mdel r "cards" :: x.2))
           (gall_fold store gm version card_to_id rest idp)) := by
  refine ⟨?_, ?_, ?_⟩
  · intro store gm version card_to_id idp r rest c cs hsort hup he
    have hcmem : c ∈ cardsOf r := by
      rw [← mem_sortStrings, hsort]
      exact List.mem_cons_self c cs
    have hlen : ¬ (sortStrings (cardsOf r)).length = 0 := by
      rw [hsort]
      simp
    have hfil : (sortStrings (cardsOf r)).filter (fun c2 => mcontains card_to_id c2) = [] := by
      rw [List.filter_eq_nil_iff]
      intro a ha
      have hfa := hup a ((mem_sortStrings _ a).mp ha)
      simp [hfa]
    have he2 : exact_match_of (mdel r "cards") = true := by
      rw [exact_match_mdel_cards]
      exact he
    obtain ⟨fp, hfp⟩ :=
      format_profile_eq_some (gall_sanitized store gm version r c) gm
        (Val.vStr gm.value) (Val.vInt version)
        (Val.vStr (store.get_refid gm version (RemoteUser.card_to_userid c)))
        (Val.vInt (store.get_extid gm version (RemoteUser.card_to_userid c)))
        (mget_gall_sanitized_game store gm version r c) (fromVal_value gm)
        (mget_gall_sanitized_version store gm version r c)
        (mget_gall_sanitized_refid store gm version r c)
        (mget_gall_sanitized_extid store gm version r c)
    refine ⟨fp, hfp, ?_, ?_, ?_⟩
    · rw [format_profile_version _ fp hfp, mget_gall_sanitized_version]
    · exact fun x hx => sortStrings_head_min (cardsOf r) c cs hsort x hx
    · simp only [gall_fold, hlen, if_false, hfil, List.length_nil, lt_irrefl]
      rw [mdelE_ok _ _ (cards_present_of_mem r c hcmem)]
      simp [he2, hsort, hfp]
  · intro store gm version card_to_id idp r rest h
    simp [gall_fold, h, sortStrings, List.insertionSort]
  · intro store gm version card_to_id idp r rest hne hup he
    exact gall_fold_nonexact store gm version card_to_id idp r rest hne hup he

/-- Witness for C6 on the spec's example: cards `["b1", "A1"]`, exact and
unknown locally, yield one identity derived from `"A1"` with version the
requested `1`. -/
theorem c6_exact_unknown_record_witness :
    ∃ fp,
      format_profile (gall_sanitized store0 GameConstants.iidx 1 recBA "A1") = some fp ∧
      mget fp "version" = some (Val.vInt 1) ∧
      (∀ x ∈ cardsOf recBA, "A1" ≤ x) ∧
      gall_fold store0 GameConstants.iidx 1 [] [recBA] [] =
        Except.map (fun x => (x.1, gall_sanitized store0 GameConstants.iidx 1 recBA "A1" :: x.2))
          (gall_fold store0 GameConstants.iidx 1 [] []
            (mset [] (RemoteUser.card_to_userid "A1") fp)) :=
  c6_exact_unknown_record.1 store0 GameConstants.iidx 1 [] [] recBA [] "A1" ["B1"]
    (by
      show sortStrings ["B1", "A1"] = ["A1", "B1"]
      have hba : ¬ (("B1" : String) ≤ "A1") := by
        rw [String.le_iff_toList_le]
        decide
      simp [sortStrings, List.insertionSort, List.orderedInsert, hba])
    (by decide) (by rfl)

/-- Claim C9: `get_all_profiles` mutates the raw records in place: a
non-anonymous record with no locally-known card has its `cards` key
deleted from the original record before the match-quality check, so the
record in the caller's list is altered (it had a `cards` key, the
post-call record does not) even though a non-`exact` record is then
discarded; by contrast `__profile_request` and `get_any_profiles` deep
copy each record before sanitizing, leaving the caller's records
unchanged. -/
theorem c9_getall_mutates_in_place :
    (∀ (store : LocalStore) (gm : GameConstants) (version : Int)
       (card_to_id : List (String × UserID)) (idp : List (UserID × Dct))
       (r : Dct) (rest : List Dct),
       cardsOf r ≠ [] →
       (∀ x ∈ cardsOf r, mcontains card_to_id x = false) →
       exact_match_of r = false →
       mcontains r "cards" = true ∧
       mcontains (mdel r "cards") "cards" = false ∧
       gall_fold store gm version card_to_id (r :: rest) idp =
         Except.map (fun x => (x.1, mdel r "cards" :: x.2))
           (gall_fold store gm version card_to_id rest idp))
    ∧ (∀ profiles, profile_request_records_after profiles = profiles)
    ∧ (∀ profiles, get_any_profiles_records_after profiles = profiles) := by
  refine ⟨?_, fun _ => rfl, fun _ => rfl⟩
  intro store gm version card_to_id idp r rest hne hup he
  obtain ⟨c, hc⟩ := List.exists_mem_of_ne_nil _ hne
  refine ⟨cards_present_of_mem r c hc, ?_,
    gall_fold_nonexact store gm version card_to_id idp r rest hne hup he⟩
  simp [mcontains, mget_mdel]

/-- Witness for C9: the partial record for card C, unknown locally, loses
its `cards` key in the caller-visible record list even though it is
discarded. -/
theorem c9_getall_mutates_in_place_witness :
    (mcontains recP "cards" = true ∧
     mcontains (mdel recP "cards") "cards" = false ∧
     gall_fold store0 GameConstants.iidx 1 [] [recP] [] =
       Except.map (fun x => (x.1, mdel recP "cards" :: x.2))
         (gall_fold store0 GameConstants.iidx 1 [] [] []))
    ∧ profile_request_records_after [recP] = [recP]
    ∧ get_any_profiles_records_after [recP] = [recP] :=
  ⟨c9_getall_mutates_in_place.1 store0 GameConstants.iidx 1 [] [] recP []
     (by decide) (by decide) (by rfl),
   c9_getall_mutates_in_place.2.1 [recP],
   c9_getall_mutates_in_place.2.2 [recP]⟩

theorem mcontains_mset_self {α β : Type} [DecidableEq α] (m : List (α × β)) (k : α) (v : β) :
    mcontains (mset m k v) k = true := by
  simp [mcontains, mget_mset]

theorem mcontains_mset_mono {α β : Type} [DecidableEq α] (m : List (α × β)) (k k2 : α) (v : β)
    (h : mcontains m k2 = true) : mcontains (mset m k v) k2 = true := by
  simp only [mcontains, mget_mset]
  split
  · simp
  · exact h

theorem mcontains_mapOf {α β : Type} [DecidableEq α] (l : List (α × β)) (k : α)
    (h : k ∈ l.map Prod.fst) : mcontains (mapOf l) k = true := by
  suffices hs : ∀ (l2 : List (α × β)) (m : List (α × β)),
      (mcontains m k = true ∨ k ∈ l2.map Prod.fst) →
      mcontains (l2.foldl (fun m kv => mset m kv.1 kv.2) m) k = true by
    exact hs l [] (Or.inr h)
  intro l2
  induction l2 with
  | nil =>
      intro m hm
      rcases hm with h1 | h1
      · exact h1
      · simp at h1
  | cons hd t ih =>
      intro m hm
      simp only [List.foldl_cons]
      apply ih
      rcases hm with h1 | h1
      · exact Or.inl (mcontains_mset_mono m hd.1 k hd.2 h1)
      · rw [List.map_cons, List.mem_cons] at h1
        rcases h1 with h2 | h2
        · exact Or.inl (h2 ▸ mcontains_mset_self m hd.1 hd.2)
        · exact Or.inr h2

theorem mapOf_entry_prop {α β : Type} [DecidableEq α] (P : α × β → Prop) (l : List (α × β))
    (hl : ∀ kv ∈ l, P kv) : ∀ kv ∈ mapOf l, P kv := by
  suffices hs : ∀ (l2 : List (α × β)) (m : List (α × β)), (∀ kv ∈ m, P kv) →
      (∀ kv ∈ l2, P kv) →
      ∀ kv ∈ l2.foldl (fun m kv => mset m kv.1 kv.2) m, P kv by
    exact hs l [] (by simp) hl
  intro l2
  induction l2 with
  | nil =>
      intro m hm _ kv hkv
      exact hm kv hkv
  | cons hd t ih =>
      intro m hm hl2 kv hkv
      simp only [List.foldl_cons] at hkv
      refine ih (mset m hd.1 hd.2) ?_ (fun kv2 hk2 => hl2 kv2 (List.mem_cons_of_mem _ hk2)) kv hkv
      intro kv2 hk2
      rcases mem_mset m hd.1 hd.2 kv2 hk2 with rfl | hk3
      · exact hl2 hd (List.mem_cons_self _ _)
      · exact hm kv2 hk3

theorem mget_mapOf_remote (ids : List UserID) (c : String)
    (hrem : ∀ u ∈ ids, RemoteUser.is_remote u = true)
    (hc : UserID.remote c ∈ ids) :
    mget (mapOf (ids.map (fun u => (RemoteUser.userid_to_card u, u)))) c =
      some (UserID.remote c) := by
  have hpres : mcontains (mapOf (ids.map (fun u => (RemoteUser.userid_to_card u, u)))) c
      = true := by
    apply mcontains_mapOf
    simp only [List.map_map]
    exact List.mem_map.mpr ⟨UserID.remote c, hc, rfl⟩
  obtain ⟨v, hv⟩ := Option.isSome_iff_exists.mp hpres
  have hmem2 := mget_mem _ c v hv
  have hprop : ∀ kv ∈ ids.map (fun u => (RemoteUser.userid_to_card u, u)),
      kv.2 = UserID.remote kv.1 := by
    intro kv hkv
    obtain ⟨u, hu, rfl⟩ := List.mem_map.mp hkv
    cases u with
    | loc n => exact absurd (hrem _ hu) (by simp [RemoteUser.is_remote])
    | remote s => rfl
  have hveq : v = UserID.remote c :=
    mapOf_entry_prop (fun kv => kv.2 = UserID.remote kv.1) _ hprop (c, v) hmem2
  rw [hv, hveq]

theorem gap_inner_mget_preserved (store : LocalStore) (gm : GameConstants) (version : Int)
    (c : String) :
    ∀ (cards : List String) (profile : Dct) (m : List (String × UserID))
      (acc : List (UserID × Option Dct)) (p2 : Dct) (m2 : List (String × UserID))
      (acc2 : List (UserID × Option Dct)),
      c ∉ cards →
      gap_inner store gm version cards profile m acc = Except.ok (p2, m2, acc2) →
      mget m2 c = mget m c := by
  intro cards
  induction cards with
  | nil =>
      intro profile m acc p2 m2 acc2 _ h
      simp only [gap_inner, Except.ok.injEq, Prod.mk.injEq] at h
      rw [← h.2.1]
  | cons card t ih =>
      intro profile m acc p2 m2 acc2 hc h
      have hct : c ∉ t := fun h2 => hc (List.mem_cons_of_mem card h2)
      have hcc : c ≠ card := fun h2 => hc (h2 ▸ List.mem_cons_self card t)
      simp only [gap_inner] at h
      split at h
      · exact ih profile m acc p2 m2 acc2 hct h
      · split at h
        · simp at h
        · split at h
          · simp at h
          · rename_i userid _ p1 _ fp _
            have h2 := ih _ _ _ p2 m2 acc2 hct h
            rw [h2, mget_mdel, if_neg hcc]

theorem gap_outer_mget_preserved (store : LocalStore) (gm : GameConstants) (version : Int)
    (c : String) :
    ∀ (records : List Dct) (m : List (String × UserID)) (acc : List (UserID × Option Dct))
      (m2 : List (String × UserID)) (acc2 : List (UserID × Option Dct)),
      (∀ r ∈ records, c ∉ cardsOf r) →
      gap_outer store gm version records m acc = Except.ok (m2, acc2) →
      mget m2 c = mget m c := by
  intro records
  induction records with
  | nil =>
      intro m acc m2 acc2 _ h
      simp only [gap_outer, Except.ok.injEq, Prod.mk.injEq] at h
      rw [← h.1]
  | cons r rest ih =>
      intro m acc m2 acc2 hno h
      simp only [gap_outer] at h
      split at h
      · simp at h
      · rename_i p2x m2x acc2x heq
        have h1 := gap_inner_mget_preserved store gm version c (cardsOf r) r m acc
          p2x m2x acc2x (hno r (List.mem_cons_self r rest)) heq
        have h2 := ih m2x acc2x m2 acc2 (fun r2 hr2 => hno r2 (List.mem_cons_of_mem r hr2)) h
        rw [h2, h1]

/-- Claim C7: every requested virtual identity whose card appears in no
remote record's card list is reported as `(identity, none)` in the result
of `get_any_profiles` (whenever the call returns a result at all): the
identity is never silently omitted. -/
theorem c7_unmatched_identity_reported :
    ∀ (store : LocalStore) (clients : List Client) (gm : GameConstants) (version : Int)
      (userids : List UserID) (res : List (UserID × Option Dct)) (c : String),
      GlobalUserData.get_any_profiles store clients gm version userids = Except.ok res →
      UserID.remote c ∈ userids →
      (∀ r ∈ call_clients clients gm version IdType.card
          ((userids.filter (fun u => RemoteUser.is_remote u)).map RemoteUser.userid_to_card),
        c ∉ cardsOf r) →
      (UserID.remote c, (none : Option Dct)) ∈ res := by
  intro store clients gm version userids res c h hmem hnocard
  have hne0 : ¬ (userids.length = 0) := by
    rw [List.length_eq_zero]
    exact List.ne_nil_of_mem hmem
  have hrc : UserID.remote c ∈ userids.filter (fun u => RemoteUser.is_remote u) :=
    List.mem_filter.mpr ⟨hmem, rfl⟩
  have hner : ¬ ((userids.filter (fun u => RemoteUser.is_remote u)).length = 0) := by
    rw [List.length_eq_zero]
    exact List.ne_nil_of_mem hrc
  simp only [GlobalUserData.get_any_profiles, hne0, if_false, hner] at h
  split at h
  · simp at h
  · rename_i m2 acc2 heq
    simp only [Except.ok.injEq] at h
    subst h
    have hM : mget (mapOf ((userids.filter (fun u => RemoteUser.is_remote u)).map
        (fun u => (RemoteUser.userid_to_card u, u)))) c = some (UserID.remote c) :=
      mget_mapOf_remote _ c (fun u hu => (List.mem_filter.mp hu).2) hrc
    have hm2 : mget m2 c = some (UserID.remote c) := by
      rw [gap_outer_mget_preserved store gm version c _ _ _ _ _ hnocard heq]
      exact hM
    have hpair : (c, UserID.remote c) ∈ m2 := mget_mem m2 c _ hm2
    refine List.mem_append_right _ ?_
    exact List.mem_map.mpr ⟨(c, UserID.remote c), hpair, rfl⟩

/-- Witness for C7: the virtual identity for card A, which no peer record
mentions, is reported as `(identity, none)`. -/
theorem c7_unmatched_identity_reported_witness :
    (UserID.remote "A", (none : Option Dct)) ∈
      ([(UserID.remote "A", (none : Option Dct))] : List (UserID × Option Dct)) :=
  c7_unmatched_identity_reported store0 [clientX] GameConstants.iidx 1 [UserID.remote "A"]
    [(UserID.remote "A", none)] "A" (by rfl) (by decide) (by decide)
